import Mathlib

/-!
Shallow embedding of the `newsecurity` ingestion pipeline
(`src/database.py`, `src/feed_parser.py`) and proofs about its
specification.  SQLite storage is modelled as a list of rows in
insertion order; the `url UNIQUE` constraint and the
`ON CONFLICT(url) DO UPDATE` clause of `upsert_news_items` are
reproduced as pure list operations.  Network and clock effects are
passed in explicitly (an environment function for HTTP results, a
`DT` value for the current UTC instant).
-/

namespace NewSecurity

/-- Canonical news record, mirroring the columns of `news_items`
(`database.py`, `CREATE_TABLE_SQL`) apart from the surrogate
integer `id`.  All columns are TEXT. -/
structure NewsItem where
  title : String
  url : String
  summary : String
  published_at : String
  source_name : String
  category : String
  fetched_at : String
  deriving Repr, DecidableEq

/-- The persistent table `news_items`: rows in insertion order. -/
abbrev Store := List NewsItem

/-- Look up the stored row for a URL (the `url` column is UNIQUE,
so at most one row matches). -/
def getRecord (store : Store) (u : String) : Option NewsItem :=
  store.find? (fun r => r.url = u)

/-- Merge policy of the `ON CONFLICT(url) DO UPDATE SET` clause in
`upsert_news_items` (`database.py` lines 60-62): the stored row keeps
`title`, `published_at`, `source_name`, `category`; `summary` is
replaced only when the incoming (`excluded`) summary is non-empty;
`fetched_at` is always replaced. -/
def mergeOnConflict (stored incoming : NewsItem) : NewsItem :=
  { stored with
    summary := if incoming.summary ≠ "" then incoming.summary else stored.summary,
    fetched_at := incoming.fetched_at }

/-- One `INSERT ... ON CONFLICT(url) DO UPDATE` statement applied to
the table: if a row with the same `url` exists it is updated in place
via `mergeOnConflict`, otherwise the item is appended as a new row. -/
def upsertOne (store : Store) (item : NewsItem) : Store :=
  if store.any (fun r => r.url = item.url) then
    store.map (fun r => if r.url = item.url then mergeOnConflict r item else r)
  else
    store ++ [item]

/-- `upsert_news_items` (`database.py` lines 38-76): early-returns 0 on
an empty batch without touching storage; otherwise counts rows, runs
one upsert statement per item in input order, counts rows again and
returns the difference.  The per-item `try/except` is vacuous here
because the modelled statement never fails. -/
def upsert_news_items (store : Store) (items : List NewsItem) : Store × Int :=
  if items.isEmpty then
    (store, 0)
  else
    let count_before : Int := store.length
    let store2 := items.foldl upsertOne store
    let count_after : Int := store2.length
    (store2, count_after - count_before)

/-- Code-point lexicographic comparison of character lists: the
BINARY collation SQLite applies to TEXT columns (UTF-8 byte order
agrees with code-point order on valid UTF-8). -/
def lexLe : List Char → List Char → Bool
  | [], _ => true
  | _ :: _, [] => false
  | a :: as, b :: bs => if a = b then lexLe as bs else decide (a.toNat < b.toNat)

/-- SQLite BINARY `<=` on TEXT values. -/
def strLe (a b : String) : Prop :=
  lexLe a.data b.data = true

/-- SQLite BINARY `<` on TEXT values. -/
def strLt (a b : String) : Prop :=
  strLe a b ∧ a ≠ b

/-- Row order of `get_news` (`database.py` lines 79-93):
`ORDER BY published_at DESC, fetched_at DESC`. -/
def newsLE (a b : NewsItem) : Prop :=
  strLt b.published_at a.published_at ∨
    (b.published_at = a.published_at ∧ strLe b.fetched_at a.fetched_at)

theorem lexLe_refl : ∀ l : List Char, lexLe l l = true := by
  intro l
  induction l with
  | nil => rfl
  | cons a as ih => simp [lexLe, ih]

theorem char_toNat_inj {a b : Char} (h : a.toNat = b.toNat) : a = b := by
  rw [← Char.ofNat_toNat a, h, Char.ofNat_toNat]

theorem lexLe_total : ∀ l₁ l₂ : List Char, lexLe l₁ l₂ = true ∨ lexLe l₂ l₁ = true := by
  intro l₁
  induction l₁ with
  | nil => intro l₂; exact Or.inl rfl
  | cons a as ih =>
    intro l₂
    cases l₂ with
    | nil => exact Or.inr rfl
    | cons b bs =>
      by_cases hab : a = b
      · subst hab
        simpa [lexLe] using ih bs
      · have hne : a.toNat ≠ b.toNat := fun h => hab (char_toNat_inj h)
        simp [lexLe, hab, Ne.symm hab]
        omega

theorem lexLe_antisymm : ∀ l₁ l₂ : List Char,
    lexLe l₁ l₂ = true → lexLe l₂ l₁ = true → l₁ = l₂ := by
  intro l₁
  induction l₁ with
  | nil =>
    intro l₂ h₁ h₂
    cases l₂ with
    | nil => rfl
    | cons b bs => simp [lexLe] at h₂
  | cons a as ih =>
    intro l₂ h₁ h₂
    cases l₂ with
    | nil => simp [lexLe] at h₁
    | cons b bs =>
      by_cases hab : a = b
      · subst hab
        simp only [lexLe, if_pos rfl] at h₁ h₂
        rw [ih bs h₁ h₂]
      · simp only [lexLe, if_neg hab, if_neg (Ne.symm hab), decide_eq_true_eq] at h₁ h₂
        omega

theorem lexLe_trans : ∀ l₁ l₂ l₃ : List Char,
    lexLe l₁ l₂ = true → lexLe l₂ l₃ = true → lexLe l₁ l₃ = true := by
  intro l₁
  induction l₁ with
  | nil => intro l₂ l₃ h₁ h₂; rfl
  | cons a as ih =>
    intro l₂ l₃ h₁ h₂
    cases l₂ with
    | nil => simp [lexLe] at h₁
    | cons b bs =>
      cases l₃ with
      | nil => simp [lexLe] at h₂
      | cons c cs =>
        by_cases hab : a = b
        · subst hab
          simp only [lexLe, if_pos rfl] at h₁
          by_cases hac : a = c
          · subst hac
            simp only [lexLe, if_pos rfl] at h₂ ⊢
            exact ih bs cs h₁ h₂
          · simpa [lexLe, hac] using h₂
        · by_cases hbc : b = c
          · subst hbc
            simpa [lexLe, hab] using h₁
          · simp only [lexLe, if_neg hab, if_neg hbc, decide_eq_true_eq] at h₁ h₂
            by_cases hac : a = c
            · exact absurd (congrArg Char.toNat hac) (by omega)
            · simp only [lexLe, if_neg hac, decide_eq_true_eq]
              omega

theorem strLe_antisymm {a b : String} (h₁ : strLe a b) (h₂ : strLe b a) : a = b :=
  String.ext (lexLe_antisymm _ _ h₁ h₂)

instance : DecidableRel newsLE := fun a b => by
  unfold newsLE strLt strLe
  infer_instance

instance : IsTotal NewsItem newsLE where
  total a b := by
    unfold newsLE
    by_cases hp : a.published_at = b.published_at
    · rcases lexLe_total a.fetched_at.data b.fetched_at.data with h | h
      · exact Or.inr (Or.inr ⟨hp, h⟩)
      · exact Or.inl (Or.inr ⟨hp.symm, h⟩)
    · rcases lexLe_total a.published_at.data b.published_at.data with h | h
      · exact Or.inr (Or.inl ⟨h, hp⟩)
      · exact Or.inl (Or.inl ⟨h, Ne.symm hp⟩)

instance : IsTrans NewsItem newsLE where
  trans a b c hab hbc := by
    unfold newsLE at *
    rcases hab with ⟨l1, n1⟩ | ⟨e1, f1⟩
    · rcases hbc with ⟨l2, n2⟩ | ⟨e2, f2⟩
      · refine Or.inl ⟨lexLe_trans _ _ _ l2 l1, fun hca => ?_⟩
        exact n2 (strLe_antisymm l2 (hca ▸ l1))
      · exact Or.inl ⟨e2 ▸ l1, e2 ▸ n1⟩
    · rcases hbc with ⟨l2, n2⟩ | ⟨e2, f2⟩
      · exact Or.inl ⟨e1 ▸ l2, fun hca => n2 (hca.trans e1.symm)⟩
      · exact Or.inr ⟨e2.trans e1, lexLe_trans _ _ _ f2 f1⟩

/-- `get_news` (`database.py` lines 79-93): rows sorted by
`published_at DESC, fetched_at DESC`, then `OFFSET` rows skipped and
at most `LIMIT` rows returned. -/
def get_news (store : Store) (limit : Nat := 200) (offset : Nat := 0) : List NewsItem :=
  ((store.insertionSort newsLE).drop offset).take limit

/-- `get_total_count` (`database.py` lines 96-101):
`SELECT COUNT(*) FROM news_items`. -/
def get_total_count (store : Store) : Nat :=
  store.length

/-- URL uniqueness invariant of the table (`url TEXT NOT NULL UNIQUE`). -/
def urlsNodup (store : Store) : Prop :=
  (store.map NewsItem.url).Nodup

set_option maxRecDepth 8000

/-- A timezone-aware or naive datetime value, standing in for Python's
`datetime`: calendar fields plus an optional UTC offset in minutes
(`none` models a naive timestamp, `tzinfo is None`). -/
structure DT where
  year : Nat
  month : Nat
  day : Nat
  hour : Nat
  minute : Nat
  second : Nat
  tz : Option Int
  deriving Repr, DecidableEq

/-- Zero-pad a number to two digits, as `datetime.isoformat` does. -/
def pad2 (n : Nat) : String :=
  if n < 10 then "0" ++ toString n else toString n

/-- Zero-pad a year to four digits, as `datetime.isoformat` does. -/
def pad4 (n : Nat) : String :=
  if n < 10 then "000" ++ toString n
  else if n < 100 then "00" ++ toString n
  else if n < 1000 then "0" ++ toString n
  else toString n

/-- UTC-offset suffix of `datetime.isoformat`: empty for a naive
datetime, otherwise signed `HH:MM` (so offset 0 prints `+00:00`). -/
def tzSuffix : Option Int → String
  | none => ""
  | some off =>
    (if off < 0 then "-" else "+") ++ pad2 (off.natAbs / 60) ++ ":" ++ pad2 (off.natAbs % 60)

/-- Python's `datetime.isoformat()` for whole-second datetimes:
`YYYY-MM-DDTHH:MM:SS` plus the offset suffix. -/
def DT.isoformat (dt : DT) : String :=
  pad4 dt.year ++ "-" ++ pad2 dt.month ++ "-" ++ pad2 dt.day ++ "T" ++
    pad2 dt.hour ++ ":" ++ pad2 dt.minute ++ ":" ++ pad2 dt.second ++ tzSuffix dt.tz

/-- ASCII lowercasing, Python's `str.lower` on the character sets in
play here. -/
def toLowerStr (s : String) : String :=
  ⟨s.data.map Char.toLower⟩

/-- The whitespace set of Python's `str.strip()`. -/
def pySpace (c : Char) : Bool :=
  c = ' ' || c = '\t' || c = '\n' || c = '\r' || c = '\x0b' || c = '\x0c'

/-- Python's `str.strip()`: leading and trailing whitespace removed. -/
def pyStrip (s : String) : String :=
  ⟨((s.data.dropWhile pySpace).reverse.dropWhile pySpace).reverse⟩

/-- Split a string at every occurrence of a separator character
(`str.split(sep)` for a one-character separator). -/
def splitOnChar (sep : Char) (s : String) : List String :=
  (s.data.foldr (fun c acc =>
    match acc with
    | [] => [[]]
    | h :: t => if c = sep then [] :: h :: t else (c :: h) :: t) [[]]).map String.mk

/-- Python's `s[:n]` slice: the first `n` characters (code points). -/
def pySlice (s : String) (n : Nat) : String :=
  ⟨s.data.take n⟩

/-- Parse a non-empty all-digit string as a natural number. -/
def pyToNat (s : String) : Option Nat :=
  if s.data ≠ [] ∧ s.data.all Char.isDigit then
    some (s.data.foldl (fun n c => n * 10 + (c.toNat - 48)) 0)
  else none

/-- Parse a strict `YYYY-MM-DD` date part. -/
def parseDatePart (s : String) : Option (Nat × Nat × Nat) :=
  match splitOnChar '-' s with
  | [y, mo, d] => do
    let yn ← pyToNat y
    let mn ← pyToNat mo
    let dn ← pyToNat d
    if y.length = 4 ∧ mo.length = 2 ∧ d.length = 2 ∧
        1 ≤ mn ∧ mn ≤ 12 ∧ 1 ≤ dn ∧ dn ≤ 31 then
      some (yn, mn, dn)
    else none
  | _ => none

/-- Parse a strict `HH:MM:SS` time part with optional `Z` or signed
`HH:MM` offset, returning the fields and the offset in minutes. -/
def parseTimePart (s : String) : Option (Nat × Nat × Nat × Option Int) :=
  let core : String → Option Int → Option (Nat × Nat × Nat × Option Int) := fun t tz =>
    match splitOnChar ':' t with
    | [h, m, sec] => do
      let hn ← pyToNat h
      let mn ← pyToNat m
      let sn ← pyToNat sec
      if h.length = 2 ∧ m.length = 2 ∧ sec.length = 2 ∧ hn < 24 ∧ mn < 60 ∧ sn < 60 then
        some (hn, mn, sn, tz)
      else none
    | _ => none
  if s.data.getLast? = some 'Z' then core ⟨s.data.dropLast⟩ (some 0)
  else if s.length = 14 then
    let sign := (s.drop 8).take 1
    if sign = "+" ∨ sign = "-" then
      match splitOnChar ':' (s.drop 9) with
      | [oh, om] => do
        let ohn ← pyToNat oh
        let omn ← pyToNat om
        if oh.length = 2 ∧ om.length = 2 ∧ ohn < 24 ∧ omn < 60 then
          let off : Int := ohn * 60 + omn
          core (s.take 8) (some (if sign = "-" then -off else off))
        else none
      | _ => none
    else none
  else core s none

/-- Restricted model of the external `dateutil` parser used by
`_normalize_date`: accepts strict ISO-8601 `YYYY-MM-DDTHH:MM:SS`
with optional `Z` or `+HH:MM`/`-HH:MM` offset; every other input
fails (dateutil raises there or is out of this model's scope). -/
def parseISO8601 (s : String) : Option DT :=
  match splitOnChar 'T' s with
  | [d, t] => do
    let (yn, mn, dn) ← parseDatePart d
    let (hn, min, sn, tz) ← parseTimePart t
    some ⟨yn, mn, dn, hn, min, sn, tz⟩
  | _ => none

/-- `_normalize_date` (`feed_parser.py` lines 33-43), parameterized
over the external date parser `parse` (an exception becomes `none`)
and the current UTC instant `now`.  A falsy input (`None` or the
empty string, both modelled by `""`) and a parse failure fall back to
`now.isoformat`; a parsed naive timestamp gets `tzinfo` replaced by
UTC before `isoformat`. -/
def _normalize_date (parse : String → Option DT) (now : DT) (raw : String) : String :=
  if raw = "" then now.isoformat
  else
    match parse raw with
    | none => now.isoformat
    | some dt => (if dt.tz = none then { dt with tz := some 0 } else dt).isoformat

/-- Split a character list at its first `>`:
`splitAtGt l = some (b, a)` means `l = b ++ one gt ++ a` with no `>` in `b`. -/
def splitAtGt : List Char → Option (List Char × List Char)
  | [] => none
  | c :: cs =>
    if c = '>' then some ([], cs)
    else
      match splitAtGt cs with
      | some (b, a) => some (c :: b, a)
      | none => none

/-- One pass of `re.sub(r"<[^>]+>", "", text)`, fuel-structured for
executability: at each `<`, if a `>` follows with at least one
character in between, the whole `<...>` run is removed (the greedy
`[^>]+` stops at the first `>`); otherwise the character is kept and
scanning continues.  Every step consumes at least one character, so
fuel equal to the list length never runs out (when `splitAtGt` fires,
`after` is strictly shorter than `rest`). -/
def stripTagsFuel : Nat → List Char → List Char
  | 0, _ => []
  | _, [] => []
  | fuel + 1, c :: rest =>
    if c = '<' then
      match splitAtGt rest with
      | some (before, after) =>
        if before.isEmpty then c :: stripTagsFuel fuel rest
        else stripTagsFuel fuel after
      | none => c :: stripTagsFuel fuel rest
    else c :: stripTagsFuel fuel rest

/-- `re.sub(r"<[^>]+>", "", text)` on strings. -/
def reSubTags (s : String) : String :=
  ⟨stripTagsFuel s.data.length s.data⟩

/-- `_clean_summary` (`feed_parser.py` lines 46-53): falsy input gives
`""`; otherwise markup tags are removed, whitespace is trimmed, the
text is cut to `max_len` characters and `…` is appended exactly when
the trimmed text was longer than `max_len`. -/
def _clean_summary (text : String) (max_len : Nat := 300) : String :=
  if text = "" then ""
  else
    let t := pyStrip (reSubTags text)
    pySlice t max_len ++ (if t.length > max_len then "…" else "")

/-- Python's `in` operator on lists of characters:
`pat` occurs contiguously in the scanned list. -/
def strContainsAux (pat : List Char) : List Char → Bool
  | [] => pat.isEmpty
  | c :: cs => pat.isPrefixOf (c :: cs) || strContainsAux pat cs

/-- Python's `pat in s` substring test. -/
def strContains (s pat : String) : Bool :=
  strContainsAux pat.data s.data

/-- Python's `a or b` on strings (the empty string is falsy), used for
the `link`/`id`, `summary`/`description` and date fallback chains. -/
def pyOr (a b : String) : String :=
  if a ≠ "" then a else b

/-- Source descriptor as read from `sources.yaml`.  Fields read with
`source.get(key, dflt)` where an empty string and a missing key behave
identically under the code's truthiness tests are plain `String`s with
`""` for absent; `type` distinguishes a missing key (defaulted to
`"rss"`) from a present value, so it stays an `Option`. -/
structure Source where
  name : String
  url : String
  category : String
  filter_keyword : String
  type : Option String
  scraper_module : String
  deriving Repr, DecidableEq

/-- `source.get("type", "rss")` (`feed_parser.py` line 137). -/
def srcType (s : Source) : String :=
  s.type.getD "rss"

/-- A feed entry as produced by `feedparser`.  `title` distinguishes a
missing key (line 94 defaults it to the placeholder) from a present
empty string; the remaining fields are only consumed through `or`
chains, where `""` and a missing key coincide. -/
structure Entry where
  link : String
  id : String
  title : Option String
  summary : String
  description : String
  published : String
  updated : String
  created : String
  deriving Repr, DecidableEq

/-- Result of `feedparser.parse` on fetched bytes. -/
structure Feed where
  bozo : Bool
  entries : List Entry
  deriving Repr, DecidableEq

/-- Outcome of the HTTP GET of one source: parsed feed, or any of the
exceptions caught at `feed_parser.py` line 76 (timeout, non-2xx via
`raise_for_status`, connection error). -/
inductive HttpResult where
  | ok (feed : Feed)
  | err
  deriving Repr, DecidableEq

/-- Body of the per-entry loop of `_fetch_rss` (`feed_parser.py` lines
89-122): derive the item URL from `link` falling back to `id` (skip if
neither), default and trim the title, clean the summary, apply the
case-insensitive keyword filter, normalize the date via the
`published`/`updated`/`created` chain, and emit the record tagged with
the source's name, category and the batch's `fetched_at`. -/
def normalizeEntry (parse : String → Option DT) (now : DT) (src : Source)
    (fetched_at : String) (entry : Entry) : Option NewsItem :=
  let filter_keyword := toLowerStr src.filter_keyword
  let item_url := pyOr entry.link entry.id
  if item_url = "" then none
  else
    let title := pyStrip (entry.title.getD "(제목 없음)")
    let summary := _clean_summary (pyOr entry.summary entry.description)
    if filter_keyword ≠ "" ∧ ¬ strContains (toLowerStr (title ++ " " ++ summary)) filter_keyword then
      none
    else
      let raw_date := pyOr entry.published (pyOr entry.updated entry.created)
      some
        { title := title
          url := item_url
          summary := summary
          published_at := _normalize_date parse now raw_date
          source_name := src.name
          category := src.category
          fetched_at := fetched_at }

/-- `_fetch_rss` (`feed_parser.py` lines 60-125): `env` gives the
source's HTTP outcome, `now` the UTC instant sampled at the start of
the call (so `fetched_at = now.isoformat`, shared by all entries of
the pass).  A fetch failure, and a bozo feed with no entries, yield
the empty list; otherwise every surviving entry is normalized. -/
def fetchRss (env : Source → HttpResult) (parse : String → Option DT) (now : DT)
    (src : Source) : List NewsItem :=
  let fetched_at := now.isoformat
  match env src with
  | .err => []
  | .ok feed =>
    if feed.bozo ∧ feed.entries.isEmpty then []
    else feed.entries.filterMap (normalizeEntry parse now src fetched_at)

/-- `fetch_all_feeds` (`feed_parser.py` lines 128-160): one task per
source of type `rss` (in source order); `scraper` and unknown types
are skipped with a warning; the gathered per-task lists are
concatenated.  Exceptions cannot reach the gather in this model
because `fetchRss` already converts them to `[]`. -/
def fetchAllFeeds (env : Source → HttpResult) (parse : String → Option DT) (now : DT)
    (sources : List Source) : List NewsItem :=
  let tasks := sources.foldr
    (fun s acc => if srcType s = "rss" then fetchRss env parse now s :: acc else acc) []
  tasks.flatten

/-- Iterated upsert calls, one item per call, as in claim C2. -/
def applyCalls (store : Store) (calls : List NewsItem) : Store :=
  calls.foldl (fun st it => (upsert_news_items st [it]).1) store

/-- Last non-empty string of a list, with a default: the value held by
`summary` after folding the conflict rule over incoming summaries. -/
def lastNonEmptyD (dflt : String) (l : List String) : String :=
  l.foldl (fun acc s => if s ≠ "" then s else acc) dflt

/-- Spec-side restatement of the summary rule (§4.3 step 4, claim
C7): strip markup tags, trim whitespace, truncate to 300 characters,
appending the ellipsis marker exactly when truncation occurred. -/
def cleanSummarySpec (text : String) : String :=
  let stripped := pyStrip (reSubTags text)
  if stripped.length ≤ 300 then stripped else pySlice stripped 300 ++ "…"

/-- A fixed UTC instant used by the concrete examples. -/
def dtNow : DT := ⟨2025, 1, 1, 0, 0, 0, some 0⟩

/-- Source with keyword `bc` for the C5 counterexample. -/
def c5src : Source := ⟨"S", "http://feed", "cat", "bc", none, ""⟩

/-- Entry with title `ab` and summary `cd` for the C5 counterexample:
`bc` occurs in `"ab" ++ "cd"` but not in the space-joined text the
code checks. -/
def c5entry : Entry := ⟨"http://x", "", some "ab", "cd", "", "", "", ""⟩

/-- Source with keyword `ransomware` for the spec's C5 example. -/
def ransomSrc : Source := ⟨"R", "http://r", "", "ransomware", none, ""⟩

/-- The spec example's two entries: only the first mentions
ransomware. -/
def ransomEntries : List Entry :=
  [⟨"http://a", "", some "Ransomware attack hits hospital", "", "", "", "", ""⟩,
   ⟨"http://b", "", some "Phishing campaign targets bank", "", "", "", "", ""⟩]

/-- Environment serving the ransomware example feed. -/
def ransomEnv : Source → HttpResult := fun _ => .ok ⟨false, ransomEntries⟩

/-- Source and entry for the C7 witness. -/
def c7src : Source := ⟨"N", "http://n", "c", "", none, ""⟩

/-- Entry whose summary carries markup, for the C7 witness. -/
def c7entry : Entry := ⟨"http://i", "", some "T", "<b>Hi</b> there", "", "", "", ""⟩

/-- Five stored rows with distinct `published_at`, in shuffled
insertion order, for the C8 example. -/
def c8store : Store :=
  [⟨"t3", "u3", "", "2024-01-03T00:00:00+00:00", "s", "", "2024-01-06T00:00:00+00:00"⟩,
   ⟨"t1", "u1", "", "2024-01-01T00:00:00+00:00", "s", "", "2024-01-06T00:00:00+00:00"⟩,
   ⟨"t5", "u5", "", "2024-01-05T00:00:00+00:00", "s", "", "2024-01-06T00:00:00+00:00"⟩,
   ⟨"t2", "u2", "", "2024-01-02T00:00:00+00:00", "s", "", "2024-01-06T00:00:00+00:00"⟩,
   ⟨"t4", "u4", "", "2024-01-04T00:00:00+00:00", "s", "", "2024-01-06T00:00:00+00:00"⟩]

/-- Stored record for the C1 witness. -/
def c1stored : NewsItem :=
  ⟨"Old", "http://u", "", "2024-01-01T00:00:00+00:00", "srcA", "catA",
    "2024-01-02T00:00:00+00:00"⟩

/-- Incoming item for the C1 witness (same url, non-empty summary). -/
def c1incoming : NewsItem :=
  ⟨"New", "http://u", "Fresh", "2024-05-05T00:00:00+00:00", "srcB", "catB",
    "2024-06-06T00:00:00+00:00"⟩

theorem mergeOnConflict_url (r it : NewsItem) : (mergeOnConflict r it).url = r.url := rfl

theorem updateMap_preserves_url (it r : NewsItem) :
    (if r.url = it.url then mergeOnConflict r it else r).url = r.url := by
  by_cases hr : r.url = it.url <;> simp [hr, mergeOnConflict]

theorem upsertOne_of_conflict {store : Store} {it R : NewsItem}
    (h : getRecord store it.url = some R) :
    upsertOne store it =
      store.map (fun r => if r.url = it.url then mergeOnConflict r it else r) := by
  unfold upsertOne
  rw [if_pos]
  have hmem := List.mem_of_find?_eq_some h
  have hp := List.find?_some h
  simp only [decide_eq_true_eq] at hp
  simp only [List.any_eq_true, decide_eq_true_eq]
  exact ⟨R, hmem, hp⟩

theorem getRecord_upsertOne_conflict {store : Store} {it R : NewsItem}
    (h : getRecord store it.url = some R) :
    getRecord (upsertOne store it) it.url = some (mergeOnConflict R it) := by
  rw [upsertOne_of_conflict h]
  unfold getRecord at *
  rw [List.find?_map]
  have hcomp :
      ((fun r : NewsItem => decide (r.url = it.url)) ∘
        (fun r => if r.url = it.url then mergeOnConflict r it else r)) =
      fun r : NewsItem => decide (r.url = it.url) := by
    funext r
    simp [Function.comp, updateMap_preserves_url]
  rw [hcomp, h]
  have hp := List.find?_some h
  simp only [decide_eq_true_eq] at hp
  simp [hp]

theorem getRecord_upsertOne_fresh {store : Store} {it : NewsItem}
    (h : getRecord store it.url = none) :
    upsertOne store it = store ++ [it] := by
  unfold upsertOne
  rw [if_neg]
  unfold getRecord at h
  rw [List.find?_eq_none] at h
  simp only [List.any_eq_true, decide_eq_true_eq]
  rintro ⟨r, hr, hurl⟩
  exact absurd (by simp [hurl]) (h r hr)

theorem getRecord_append_self (store : Store) (it : NewsItem)
    (h : getRecord store it.url = none) :
    getRecord (store ++ [it]) it.url = some it := by
  unfold getRecord at *
  rw [List.find?_append, h]
  simp [List.find?]

theorem upsert_single_store (store : Store) (it : NewsItem) :
    (upsert_news_items store [it]).1 = upsertOne store it := by
  simp [upsert_news_items]

theorem any_url_upsertOne (st : Store) (it : NewsItem) (u : String) :
    (upsertOne st it).any (fun r => r.url = u) =
      (st.any (fun r => r.url = u) || decide (it.url = u)) := by
  unfold upsertOne
  split
  next hc =>
    rw [List.any_map]
    have hcomp :
        ((fun r : NewsItem => decide (r.url = u)) ∘
          (fun r => if r.url = it.url then mergeOnConflict r it else r)) =
        fun r : NewsItem => decide (r.url = u) := by
      funext r
      simp [Function.comp, updateMap_preserves_url]
    rw [hcomp]
    by_cases hu : it.url = u
    · subst hu
      simp [hc]
    · simp [hu]
  next hc => simp [List.any_append]

theorem any_url_foldl_mono (u : String) (batch : List NewsItem) :
    ∀ {st : Store}, st.any (fun r => r.url = u) = true →
      (batch.foldl upsertOne st).any (fun r => r.url = u) = true := by
  induction batch with
  | nil => intro st h; exact h
  | cons b bs ih =>
    intro st h
    exact ih (by rw [any_url_upsertOne]; simp [h])

theorem all_urls_present_after (st : Store) (batch : List NewsItem) :
    ∀ it ∈ batch, (batch.foldl upsertOne st).any (fun r => r.url = it.url) = true := by
  induction batch generalizing st with
  | nil => intro it h; cases h
  | cons b bs ih =>
    intro it hmem
    rcases List.mem_cons.mp hmem with rfl | hmem
    · exact any_url_foldl_mono _ bs (by rw [any_url_upsertOne]; simp)
    · exact ih (upsertOne st b) it hmem

theorem foldl_length_of_all_present {batch : List NewsItem} :
    ∀ {st : Store}, (∀ it ∈ batch, st.any (fun r => r.url = it.url) = true) →
      (batch.foldl upsertOne st).length = st.length := by
  induction batch with
  | nil => intro st _; rfl
  | cons b bs ih =>
    intro st h
    have hb := h b (List.mem_cons_self b bs)
    have h1 : (upsertOne st b).length = st.length := by
      unfold upsertOne
      rw [if_pos hb]
      simp
    rw [List.foldl_cons,
      ih (fun it hit => by rw [any_url_upsertOne]; simp [h it (List.mem_cons_of_mem _ hit)]), h1]

theorem urlsNodup_upsertOne {st : Store} (h : urlsNodup st) (it : NewsItem) :
    urlsNodup (upsertOne st it) := by
  unfold upsertOne urlsNodup at *
  split
  next hc =>
    have hmaps :
        (st.map (fun r => if r.url = it.url then mergeOnConflict r it else r)).map
          NewsItem.url = st.map NewsItem.url := by
      rw [List.map_map]
      exact List.map_congr_left fun r _ => updateMap_preserves_url it r
    rw [hmaps]
    exact h
  next hc =>
    have hnot : it.url ∉ st.map NewsItem.url := by
      intro hmem
      rcases List.mem_map.mp hmem with ⟨r, hr, hurl⟩
      exact hc (by simp only [List.any_eq_true, decide_eq_true_eq]; exact ⟨r, hr, hurl⟩)
    simp [List.nodup_append, h, hnot]

/-- C1: when a record with the incoming item's `url` is already stored,
one upsert call leaves a record for that `url` whose `summary` is the
incoming one exactly when it is non-empty (the stored one otherwise),
whose `fetched_at` is the incoming one unconditionally, and whose
`title`, `published_at`, `source_name` and `category` are the
originally stored values (first-write-wins). -/
theorem upsert_conflict_first_write_wins
    (store : Store) (item R : NewsItem) (h : getRecord store item.url = some R) :
    ∃ Rp, getRecord (upsert_news_items store [item]).1 item.url = some Rp ∧
      Rp.summary = (if item.summary ≠ "" then item.summary else R.summary) ∧
      Rp.fetched_at = item.fetched_at ∧
      Rp.title = R.title ∧ Rp.published_at = R.published_at ∧
      Rp.source_name = R.source_name ∧ Rp.category = R.category := by
  refine ⟨mergeOnConflict R item, ?_, rfl, rfl, rfl, rfl, rfl, rfl⟩
  rw [upsert_single_store]
  exact getRecord_upsertOne_conflict h

/-- Witness for C1 at a concrete stored record and incoming item. -/
theorem upsert_conflict_first_write_wins_witness :
    getRecord [c1stored] c1incoming.url = some c1stored ∧
    ∃ Rp,
      getRecord (upsert_news_items [c1stored] [c1incoming]).1 c1incoming.url = some Rp ∧
        Rp.summary = (if c1incoming.summary ≠ "" then c1incoming.summary
          else c1stored.summary) ∧
        Rp.fetched_at = c1incoming.fetched_at ∧
        Rp.title = c1stored.title ∧ Rp.published_at = c1stored.published_at ∧
        Rp.source_name = c1stored.source_name ∧ Rp.category = c1stored.category :=
  ⟨by decide, upsert_conflict_first_write_wins [c1stored] c1incoming c1stored (by decide)⟩

/-- C3: upserting a batch and then upserting the identical batch again
makes the second call return 0 as the newly-inserted count. -/
theorem upsert_same_batch_twice_returns_zero (store : Store) (batch : List NewsItem) :
    (upsert_news_items (upsert_news_items store batch).1 batch).2 = 0 := by
  by_cases hb : batch.isEmpty
  · simp [upsert_news_items, hb]
  · have hpres := all_urls_present_after store batch
    have hlen := @foldl_length_of_all_present batch (batch.foldl upsertOne store) hpres
    simp [upsert_news_items, hb, hlen]

/-- C9: `url` is the sole uniqueness key: a single upsert call
preserves the no-two-rows-share-a-url invariant, and any sequence of
upsert calls starting from the empty store keeps it. -/
theorem upsert_preserves_url_uniqueness :
    (∀ (store : Store) (items : List NewsItem),
      urlsNodup store → urlsNodup (upsert_news_items store items).1) ∧
    (∀ batches : List (List NewsItem),
      urlsNodup (batches.foldl (fun st b => (upsert_news_items st b).1) [])) := by
  have hfold : ∀ (items : List NewsItem) (st : Store),
      urlsNodup st → urlsNodup (items.foldl upsertOne st) := by
    intro items
    induction items with
    | nil => intro st h; exact h
    | cons b bs ih => intro st h; exact ih _ (urlsNodup_upsertOne h b)
  have hcall : ∀ (store : Store) (items : List NewsItem),
      urlsNodup store → urlsNodup (upsert_news_items store items).1 := by
    intro store items h
    by_cases hb : items.isEmpty
    · simpa [upsert_news_items, hb] using h
    · simpa [upsert_news_items, hb] using hfold items store h
  refine ⟨hcall, ?_⟩
  have hseq : ∀ (batches : List (List NewsItem)) (st : Store), urlsNodup st →
      urlsNodup (batches.foldl (fun st b => (upsert_news_items st b).1) st) := by
    intro batches
    induction batches with
    | nil => intro st h; exact h
    | cons b bs ih => intro st h; exact ih _ (hcall st b h)
  exact fun batches => hseq batches [] (by simp [urlsNodup])

/-- Witness for C9: a store holding one url stays duplicate-free when
an item with the very same url is upserted. -/
theorem upsert_preserves_url_uniqueness_witness :
    urlsNodup [⟨"t1", "http://dup", "s1", "p1", "n1", "c1", "f1"⟩] ∧
    urlsNodup (upsert_news_items
      [⟨"t1", "http://dup", "s1", "p1", "n1", "c1", "f1"⟩]
      [⟨"t2", "http://dup", "s2", "p2", "n2", "c2", "f2"⟩]).1 :=
  ⟨by unfold urlsNodup; decide,
    upsert_preserves_url_uniqueness.1 _ _ (by unfold urlsNodup; decide)⟩

/-- C10: an upsert call with the empty item list returns 0 and leaves
the store exactly as it was (the code early-returns before any
storage access). -/
theorem upsert_empty_batch (store : Store) : upsert_news_items store [] = (store, 0) :=
  rfl

theorem pySlice_of_length_le {t : String} {n : Nat} (h : t.length ≤ n) :
    pySlice t n = t :=
  String.ext (List.take_of_length_le h)

/-- C7: `_clean_summary` coincides with the spec's
strip-trim-truncate rule (with the ellipsis appended exactly when the
trimmed text exceeded 300 characters); every emitted item's summary
is `_clean_summary` of `summary` falling back to `description`; and
an entry with neither field yields the empty summary. -/
theorem clean_summary_spec :
    (∀ text : String, _clean_summary text = cleanSummarySpec text) ∧
    (∀ (parse : String → Option DT) (now : DT) (src : Source) (fa : String)
        (entry : Entry) (item : NewsItem),
      normalizeEntry parse now src fa entry = some item →
      item.summary = _clean_summary (pyOr entry.summary entry.description)) ∧
    _clean_summary (pyOr "" "") = "" := by
  refine ⟨?_, ?_, rfl⟩
  · intro text
    by_cases h : text = ""
    · subst h
      decide
    · have hmain : ∀ t : String,
          pySlice t 300 ++ (if t.length > 300 then "…" else "") =
            (if t.length ≤ 300 then t else pySlice t 300 ++ "…") := by
        intro t
        by_cases hl : t.length ≤ 300
        · rw [if_pos hl, if_neg (by omega), pySlice_of_length_le hl, String.append_empty]
        · rw [if_neg hl, if_pos (by omega)]
      unfold _clean_summary cleanSummarySpec
      rw [if_neg h]
      exact hmain (pyStrip (reSubTags text))
  · intro parse now src fa entry item h
    simp only [normalizeEntry] at h
    split at h
    · exact absurd h (by simp)
    · split at h
      · exact absurd h (by simp)
      · obtain rfl := Option.some.inj h
        rfl

/-- Witness for C7: a concrete entry whose markup summary is cleaned
in the emitted item. -/
theorem clean_summary_spec_witness :
    normalizeEntry parseISO8601 dtNow c7src "f" c7entry =
      some ⟨"T", "http://i", "Hi there", "2025-01-01T00:00:00+00:00", "N", "c", "f"⟩ ∧
    NewsItem.summary ⟨"T", "http://i", "Hi there", "2025-01-01T00:00:00+00:00", "N", "c",
        "f"⟩ = _clean_summary (pyOr c7entry.summary c7entry.description) :=
  ⟨by decide,
    clean_summary_spec.2.1 parseISO8601 dtNow c7src "f" c7entry _ (by decide)⟩

/-- C5 (amended): for a source with a non-empty filter keyword, an
entry possessing a URL survives normalization iff the lowercased
keyword occurs in the lowercased concatenation of title, ONE SPACE,
and cleaned summary (the code joins the two with a space before the
substring test); when the source defines no keyword, no entry with a
URL is dropped; and the spec's ransomware example yields exactly the
matching entry. -/
theorem keyword_filter_spec :
    (∀ (parse : String → Option DT) (now : DT) (src : Source) (fa : String) (entry : Entry),
      pyOr entry.link entry.id ≠ "" →
      toLowerStr src.filter_keyword ≠ "" →
      ((normalizeEntry parse now src fa entry).isSome = true ↔
        strContains
          (toLowerStr (pyStrip (entry.title.getD "(제목 없음)") ++ " " ++
            _clean_summary (pyOr entry.summary entry.description)))
          (toLowerStr src.filter_keyword) = true)) ∧
    (∀ (parse : String → Option DT) (now : DT) (src : Source) (fa : String) (entry : Entry),
      pyOr entry.link entry.id ≠ "" →
      toLowerStr src.filter_keyword = "" →
      (normalizeEntry parse now src fa entry).isSome = true) ∧
    fetchRss ransomEnv parseISO8601 dtNow ransomSrc =
      [⟨"Ransomware attack hits hospital", "http://a", "",
        "2025-01-01T00:00:00+00:00", "R", "", "2025-01-01T00:00:00+00:00"⟩] := by
  refine ⟨?_, ?_, by decide⟩
  · intro parse now src fa entry hurl hkw
    unfold normalizeEntry
    rw [if_neg hurl]
    cases hsc : strContains
        (toLowerStr (pyStrip (entry.title.getD "(제목 없음)") ++ " " ++
          _clean_summary (pyOr entry.summary entry.description)))
        (toLowerStr src.filter_keyword) <;>
      simp [hsc, hkw]
  · intro parse now src fa entry hurl hkw
    unfold normalizeEntry
    rw [if_neg hurl]
    simp [hkw]

/-- Witness for the amended C5 at the spec's ransomware entry. -/
theorem keyword_filter_spec_witness :
    pyOr (Entry.link ⟨"http://a", "", some "Ransomware attack hits hospital",
        "", "", "", "", ""⟩)
      (Entry.id ⟨"http://a", "", some "Ransomware attack hits hospital",
        "", "", "", "", ""⟩) ≠ "" ∧
    toLowerStr ransomSrc.filter_keyword ≠ "" ∧
    ((normalizeEntry parseISO8601 dtNow ransomSrc "f"
        ⟨"http://a", "", some "Ransomware attack hits hospital",
          "", "", "", "", ""⟩).isSome = true ↔
      strContains
        (toLowerStr (pyStrip (Option.getD (Entry.title ⟨"http://a", "",
            some "Ransomware attack hits hospital", "", "", "", "", ""⟩)
            "(제목 없음)") ++ " " ++
          _clean_summary (pyOr (Entry.summary ⟨"http://a", "",
            some "Ransomware attack hits hospital", "", "", "", "", ""⟩)
            (Entry.description ⟨"http://a", "",
              some "Ransomware attack hits hospital", "", "", "", "", ""⟩))))
        (toLowerStr ransomSrc.filter_keyword) = true) :=
  ⟨by decide, by decide,
    keyword_filter_spec.1 parseISO8601 dtNow ransomSrc "f"
      ⟨"http://a", "", some "Ransomware attack hits hospital", "", "", "", "", ""⟩
      (by decide) (by decide)⟩

/-- C5 counterexample: with keyword `bc`, title `ab` and summary
`cd`, the keyword occurs in the concatenation of title and cleaned
summary (`abcd`), yet the code drops the entry because it checks the
space-joined text `ab cd`.  The claim's iff fails at this input. -/
theorem keyword_filter_concat_counterexample :
    normalizeEntry parseISO8601 dtNow c5src "f" c5entry = none ∧
    strContains
      (toLowerStr (pyStrip (c5entry.title.getD "(제목 없음)") ++
        _clean_summary (pyOr c5entry.summary c5entry.description)))
      (toLowerStr c5src.filter_keyword) = true := by
  decide

/-- C6: the aggregate fetch is the concatenation of independent
per-source contributions: a source whose HTTP fetch fails contributes
`[]`, any non-`rss` type (scraper or unknown) contributes nothing,
and removing such a source leaves the other sources' aggregate items
unchanged.  All functions involved are total, so no failure
propagates to the caller. -/
theorem fetch_all_feeds_isolation :
    (∀ (env : Source → HttpResult) (parse : String → Option DT) (now : DT)
        (sources : List Source),
      fetchAllFeeds env parse now sources =
        (sources.map
          (fun s => if srcType s = "rss" then fetchRss env parse now s else [])).flatten) ∧
    (∀ (env : Source → HttpResult) (parse : String → Option DT) (now : DT) (s : Source),
      env s = HttpResult.err → fetchRss env parse now s = []) ∧
    (∀ (env : Source → HttpResult) (parse : String → Option DT) (now : DT)
        (s : Source) (rest : List Source),
      srcType s ≠ "rss" ∨ env s = HttpResult.err →
      fetchAllFeeds env parse now (s :: rest) = fetchAllFeeds env parse now rest) := by
  have hrss : ∀ (env : Source → HttpResult) (parse : String → Option DT) (now : DT)
      (s : Source), env s = HttpResult.err → fetchRss env parse now s = [] := by
    intro env parse now s h
    simp [fetchRss, h]
  refine ⟨?_, hrss, ?_⟩
  · intro env parse now sources
    induction sources with
    | nil => rfl
    | cons s rest ih =>
      simp only [fetchAllFeeds, List.foldr_cons, List.map_cons] at *
      by_cases hs : srcType s = "rss"
      · simp [hs, ih]
      · simp [hs, ih]
  · intro env parse now s rest h
    rcases h with h | h
    · simp [fetchAllFeeds, List.foldr_cons, h]
    · by_cases hs : srcType s = "rss"
      · simp [fetchAllFeeds, List.foldr_cons, hs, hrss env parse now s h]
      · simp [fetchAllFeeds, List.foldr_cons, hs]

/-- Witness for C6: a failing scraper-typed source and a failing rss
source each contribute nothing. -/
theorem fetch_all_feeds_isolation_witness :
    fetchAllFeeds (fun _ => HttpResult.err) parseISO8601 dtNow
        [⟨"X", "http://x", "", "", some "scraper", "m"⟩] =
      fetchAllFeeds (fun _ => HttpResult.err) parseISO8601 dtNow [] ∧
    fetchRss (fun _ => HttpResult.err) parseISO8601 dtNow
      ⟨"R", "http://r", "", "", none, ""⟩ = [] :=
  ⟨fetch_all_feeds_isolation.2.2 (fun _ => HttpResult.err) parseISO8601 dtNow
      ⟨"X", "http://x", "", "", some "scraper", "m"⟩ [] (Or.inl (by decide)),
    fetch_all_feeds_isolation.2.1 (fun _ => HttpResult.err) parseISO8601 dtNow
      ⟨"R", "http://r", "", "", none, ""⟩ rfl⟩

/-- C8: `get_news` returns a sorted-by-`published_at`-then-
`fetched_at`-descending permutation of the store with `offset` rows
skipped and at most `limit` rows returned, `get_total_count` is the
row count, and over five stored items `limit = 2, offset = 0` returns
exactly the two most recently published items. -/
theorem list_items_spec :
    (∀ (store : Store) (limit offset : Nat),
      ∃ sorted : Store, sorted.Perm store ∧ List.Sorted newsLE sorted ∧
        get_news store limit offset = (sorted.drop offset).take limit ∧
        List.Sorted newsLE (get_news store limit offset) ∧
        (get_news store limit offset).length = min limit (store.length - offset) ∧
        get_total_count store = store.length) ∧
    ((get_news c8store 2 0).length = 2 ∧
      get_news c8store 2 0 =
        [⟨"t5", "u5", "", "2024-01-05T00:00:00+00:00", "s", "",
          "2024-01-06T00:00:00+00:00"⟩,
         ⟨"t4", "u4", "", "2024-01-04T00:00:00+00:00", "s", "",
          "2024-01-06T00:00:00+00:00"⟩]) := by
  constructor
  · intro store limit offset
    refine ⟨store.insertionSort newsLE, List.perm_insertionSort _ _,
      List.sorted_insertionSort _ _, rfl, ?_, ?_, rfl⟩
    · exact List.Pairwise.sublist
        ((List.take_sublist _ _).trans (List.drop_sublist _ _))
        (List.sorted_insertionSort _ _)
    · simp [get_news, (List.perm_insertionSort newsLE store).length_eq]
  · constructor
    · decide
    · decide

theorem lastNonEmptyD_head (s : String) (l : List String) :
    lastNonEmptyD "" (s :: l) = lastNonEmptyD s l := by
  by_cases h : s = "" <;> simp [lastNonEmptyD, h]

theorem applyCalls_existing (u : String) :
    ∀ (calls : List NewsItem) {st : Store} {R : NewsItem},
      (∀ c ∈ calls, c.url = u) → getRecord st u = some R →
      ∃ Rp, getRecord (applyCalls st calls) u = some Rp ∧
        Rp.summary = lastNonEmptyD R.summary (calls.map NewsItem.summary) ∧
        Rp.fetched_at = (calls.map NewsItem.fetched_at).getLastD R.fetched_at := by
  intro calls
  induction calls with
  | nil => intro st R _ h; exact ⟨R, h, rfl, rfl⟩
  | cons c cs ih =>
    intro st R hall h
    have hcu : c.url = u := hall c (List.mem_cons_self c cs)
    have h1 : getRecord (upsertOne st c) u = some (mergeOnConflict R c) := by
      rw [← hcu] at h ⊢
      exact getRecord_upsertOne_conflict h
    have hstep : applyCalls st (c :: cs) = applyCalls (upsertOne st c) cs := by
      simp [applyCalls, upsert_single_store]
    rw [hstep]
    obtain ⟨Rp, hrec, hsum, hfet⟩ := ih (fun x hx => hall x (List.mem_cons_of_mem _ hx)) h1
    refine ⟨Rp, hrec, ?_, ?_⟩
    · rw [hsum]
      simp [lastNonEmptyD, mergeOnConflict]
    · rw [hfet, List.map_cons, List.getLastD_cons]
      rfl

/-- C2 (amended): starting from a store with no record for `u`, after
N single-item upsert calls all with url `u` the stored summary is the
LAST non-empty summary supplied across the calls (empty when every
supplied summary was empty) and the stored `fetched_at` is the most
recent call's value. -/
theorem upsert_sequence_summary_law (u : String) (st : Store) (calls : List NewsItem)
    (hfresh : getRecord st u = none)
    (hall : ∀ c ∈ calls, c.url = u)
    (hne : calls ≠ []) :
    ∃ R, getRecord (applyCalls st calls) u = some R ∧
      R.summary = lastNonEmptyD "" (calls.map NewsItem.summary) ∧
      R.fetched_at = (calls.map NewsItem.fetched_at).getLastD "" := by
  obtain ⟨c, cs, rfl⟩ := List.exists_cons_of_ne_nil hne
  have hcu : c.url = u := hall c (List.mem_cons_self c cs)
  have hins : upsertOne st c = st ++ [c] :=
    getRecord_upsertOne_fresh (by rw [hcu]; exact hfresh)
  have hrec1 : getRecord (st ++ [c]) u = some c := by
    rw [← hcu] at hfresh ⊢
    exact getRecord_append_self st c hfresh
  have hstep : applyCalls st (c :: cs) = applyCalls (upsertOne st c) cs := by
    simp [applyCalls, upsert_single_store]
  rw [hstep, hins]
  obtain ⟨Rp, hrecp, hsum, hfet⟩ :=
    applyCalls_existing u cs (fun x hx => hall x (List.mem_cons_of_mem _ hx)) hrec1
  refine ⟨Rp, hrecp, ?_, ?_⟩
  · rw [hsum, List.map_cons, lastNonEmptyD_head]
  · rw [hfet, List.map_cons, List.getLastD_cons]

/-- Witness for the amended C2: three calls with summaries `""`,
`"A"`, `"B"` end with stored summary `"B"` and the last call's
`fetched_at`. -/
theorem upsert_sequence_summary_law_witness :
    getRecord ([] : Store) "u" = none ∧
    (∀ c ∈ [(⟨"t1", "u", "", "p1", "n", "c", "f1"⟩ : NewsItem),
        ⟨"t2", "u", "A", "p2", "n", "c", "f2"⟩,
        ⟨"t3", "u", "B", "p3", "n", "c", "f3"⟩], c.url = "u") ∧
    ([(⟨"t1", "u", "", "p1", "n", "c", "f1"⟩ : NewsItem),
        ⟨"t2", "u", "A", "p2", "n", "c", "f2"⟩,
        ⟨"t3", "u", "B", "p3", "n", "c", "f3"⟩] ≠ []) ∧
    ∃ R, getRecord (applyCalls []
        [(⟨"t1", "u", "", "p1", "n", "c", "f1"⟩ : NewsItem),
          ⟨"t2", "u", "A", "p2", "n", "c", "f2"⟩,
          ⟨"t3", "u", "B", "p3", "n", "c", "f3"⟩]) "u" = some R ∧
      R.summary = lastNonEmptyD ""
        ([(⟨"t1", "u", "", "p1", "n", "c", "f1"⟩ : NewsItem),
          ⟨"t2", "u", "A", "p2", "n", "c", "f2"⟩,
          ⟨"t3", "u", "B", "p3", "n", "c", "f3"⟩].map NewsItem.summary) ∧
      R.fetched_at = ([(⟨"t1", "u", "", "p1", "n", "c", "f1"⟩ : NewsItem),
          ⟨"t2", "u", "A", "p2", "n", "c", "f2"⟩,
          ⟨"t3", "u", "B", "p3", "n", "c", "f3"⟩].map NewsItem.fetched_at).getLastD "" :=
  ⟨by decide, by decide, by decide,
    upsert_sequence_summary_law "u" [] _ (by decide) (by decide) (by decide)⟩

theorem isoformat_ne_empty (dt : DT) : dt.isoformat ≠ "" := by
  intro h
  have hlen := congrArg String.length h
  simp only [DT.isoformat, String.length_append,
    (show ("-" : String).length = 1 from rfl),
    (show ("" : String).length = 0 from rfl)] at hlen
  omega

/-- C4: the published timestamp of every emitted item comes from
`_normalize_date` applied to the `published`/`updated`/`created`
fallback chain; a falsy or unparsable input falls back to the current
UTC instant; a parsed naive timestamp is stamped UTC; the result is
never empty; and the spec's concrete example holds: `published` empty
with `updated = 2024-01-01T00:00:00` emits
`2024-01-01T00:00:00+00:00`. -/
theorem normalize_date_spec :
    (∀ (parse : String → Option DT) (now : DT) (src : Source) (fa : String)
        (entry : Entry) (item : NewsItem),
      normalizeEntry parse now src fa entry = some item →
      item.published_at =
        _normalize_date parse now (pyOr entry.published (pyOr entry.updated entry.created)) ∧
      item.published_at ≠ "") ∧
    (∀ (parse : String → Option DT) (now : DT) (raw : String),
      raw = "" ∨ parse raw = none → _normalize_date parse now raw = now.isoformat) ∧
    (∀ (parse : String → Option DT) (now : DT) (raw : String) (dt : DT),
      raw ≠ "" → parse raw = some dt → dt.tz = none →
      _normalize_date parse now raw = DT.isoformat { dt with tz := some 0 }) ∧
    (∀ (parse : String → Option DT) (now : DT) (raw : String),
      _normalize_date parse now raw ≠ "") ∧
    (∀ now : DT,
      _normalize_date parseISO8601 now (pyOr "" (pyOr "2024-01-01T00:00:00" "")) =
        "2024-01-01T00:00:00+00:00") := by
  have hne : ∀ (parse : String → Option DT) (now : DT) (raw : String),
      _normalize_date parse now raw ≠ "" := by
    intro parse now raw
    unfold _normalize_date
    by_cases hr : raw = ""
    · simp only [if_pos hr]
      exact isoformat_ne_empty now
    · rw [if_neg hr]
      cases parse raw with
      | none => exact isoformat_ne_empty now
      | some dt => exact isoformat_ne_empty _
  refine ⟨?_, ?_, ?_, hne, ?_⟩
  · intro parse now src fa entry item h
    simp only [normalizeEntry] at h
    split at h
    · exact absurd h (by simp)
    · split at h
      · exact absurd h (by simp)
      · obtain rfl := Option.some.inj h
        exact ⟨rfl, hne _ _ _⟩
  · intro parse now raw h
    rcases h with h | h
    · simp [_normalize_date, h]
    · by_cases hr : raw = ""
      · simp [_normalize_date, hr]
      · simp [_normalize_date, hr, h]
  · intro parse now raw dt hr hp ht
    simp [_normalize_date, hr, hp, ht]
  · intro now
    have hraw : pyOr "" (pyOr "2024-01-01T00:00:00" "") = "2024-01-01T00:00:00" := by decide
    rw [hraw]
    unfold _normalize_date
    rw [if_neg (by decide),
      (show parseISO8601 "2024-01-01T00:00:00" = some ⟨2024, 1, 1, 0, 0, 0, none⟩ from by
        decide)]
    exact (show DT.isoformat ⟨2024, 1, 1, 0, 0, 0, some 0⟩ = "2024-01-01T00:00:00+00:00" by
      decide)

/-- Witness for C4 at concrete inputs: an unparsable date falls back
to the supplied current instant, and the spec's example timestamp is
UTC-stamped. -/
theorem normalize_date_spec_witness :
    _normalize_date parseISO8601 ⟨2025, 1, 2, 3, 4, 5, some 0⟩ "not a date" =
      DT.isoformat ⟨2025, 1, 2, 3, 4, 5, some 0⟩ ∧
    ("2024-01-01T00:00:00" ≠ "") ∧
    parseISO8601 "2024-01-01T00:00:00" = some ⟨2024, 1, 1, 0, 0, 0, none⟩ ∧
    _normalize_date parseISO8601 ⟨2025, 1, 2, 3, 4, 5, some 0⟩ "2024-01-01T00:00:00" =
      DT.isoformat ⟨2024, 1, 1, 0, 0, 0, some 0⟩ :=
  ⟨normalize_date_spec.2.1 parseISO8601 ⟨2025, 1, 2, 3, 4, 5, some 0⟩ "not a date"
      (Or.inr (by decide)),
    by decide, by decide,
    normalize_date_spec.2.2.1 parseISO8601 ⟨2025, 1, 2, 3, 4, 5, some 0⟩
      "2024-01-01T00:00:00" ⟨2024, 1, 1, 0, 0, 0, none⟩ (by decide) (by decide) rfl⟩

/-- C2 counterexample: two upsert calls for url `"u"` supply the
non-empty summaries `"A"` then `"B"`.  The claim predicts the stored
summary `"A"` (the FIRST non-empty one ever supplied); the code stores
`"B"` (each non-empty incoming summary overwrites). -/
theorem upsert_sequence_first_summary_counterexample :
    (getRecord (applyCalls []
        [(⟨"t", "u", "A", "p", "n", "c", "f1"⟩ : NewsItem),
          ⟨"t", "u", "B", "p", "n", "c", "f2"⟩]) "u").map NewsItem.summary = some "B" ∧
    ¬((getRecord (applyCalls []
        [(⟨"t", "u", "A", "p", "n", "c", "f1"⟩ : NewsItem),
          ⟨"t", "u", "B", "p", "n", "c", "f2"⟩]) "u").map NewsItem.summary = some "A") := by
  decide

end NewSecurity
